import Mathlib

/-!
Verification of the student-progress session-grouping logic.

The source is a React page component whose interesting core is a pure,
synchronous transformation: it takes a flat list of quiz-attempt rows and
groups them into "sessions" per (user, book) using a time-gap heuristic,
then derives aggregate statistics (per-session percentage, latest session
per book, average percentage across sessions) and a badge display order.

Embedding conventions:
* JavaScript numbers on the integer-valued fields (ids, scores, epoch
  milliseconds) are modelled as `Int`.
* A `createdAt` date string is modelled by the epoch-millisecond value the
  host returns for it (`new Date(s).getTime()`); an absent or empty string
  (falsy in the source's `a.createdAt ? ... : 0` test) is `none`.  A
  separate micro-model (`tsRaw` below) captures the host behaviour on
  unparseable date strings, where `getTime()` yields NaN.
* `Math.round(x)` on an exact rational num/den with den > 0 is
  floor(num/den + 1/2), written `jsRound` below.
* The host's stable `Array.prototype.sort` with a consistent comparator is
  modelled by `List.mergeSort`, which is stable and sorts by the
  comparator's induced order.
-/

namespace StudentProgress

/-- `const SESSION_GAP_SEC = 120` — gap threshold in seconds. -/
def SESSION_GAP_SEC : Int := 120

/-- One row per submitted quiz (type `QuizAttempt` in the source).
`createdAt` holds the parsed epoch-millisecond timestamp of the row's date
string, `none` when the field is absent or empty. -/
structure QuizAttempt where
  userId : Int
  bookId : Int
  pageId : Option Int := none
  scoreCorrect : Option Int := none
  scoreTotal : Option Int := none
  percentage : Option Int := none
  mode : Option String := none
  attemptNumber : Option Int := none
  durationSec : Option Int := none
  createdAt : Option Int := none
deriving DecidableEq, Repr

/-- Derived, non-persisted session record (type `QuizSession` in the source). -/
structure QuizSession where
  bookId : Int
  startAt : Int
  endAt : Int
  totalCorrect : Int
  totalTotal : Int
  percentage : Int
  mode : String
deriving DecidableEq, Repr

/-- `Math.round (num / den)` for `den > 0`, computed on exact rationals:
round-half-toward-positive-infinity, i.e. `⌊num/den + 1/2⌋`. -/
def jsRound (num den : Int) : Int :=
  Int.fdiv (2 * num + den) (2 * den)

/-- `const ts = (a) => (a.createdAt ? new Date(a.createdAt).getTime() : 0)`
over parsed timestamps: absent (or empty, hence falsy) `createdAt` is 0. -/
def ts (a : QuizAttempt) : Int := a.createdAt.getD 0

/-- `const mode = a.mode === "straight" ? "straight" : "retry"` (line 247). -/
def recMode (a : QuizAttempt) : String :=
  if a.mode = some "straight" then "straight" else "retry"

/-- The per-record mutation of the current session (lines 264-269 of the
source): accumulate `scoreCorrect`/`scoreTotal` (defaulting null to 0),
recompute `percentage` with the `totalTotal > 0` guard, and taint `mode` to
"straight" if this record's mode is "straight". -/
def accumRecord (a : QuizAttempt) (s : QuizSession) : QuizSession :=
  let corr := a.scoreCorrect.getD 0
  let tot := a.scoreTotal.getD 0
  let tc := s.totalCorrect + corr
  let tt := s.totalTotal + tot
  { s with
    totalCorrect := tc
    totalTotal := tt
    percentage := if 0 < tt then jsRound (100 * tc) tt else 0
    mode := if recMode a = "straight" then "straight" else s.mode }

/-- The fresh session seeded from a record (lines 250-258 of the source):
`startAt = endAt = time`, zeroed totals, mode from the record. -/
def newSession (a : QuizAttempt) (time : Int) : QuizSession :=
  { bookId := a.bookId
    startAt := time
    endAt := time
    totalCorrect := 0
    totalTotal := 0
    percentage := 0
    mode := recMode a }

/-- One iteration of the `for (const a of list)` loop in `groupIntoSessions`.
The state is the list of closed sessions (`out` minus the session still
being mutated) together with the current session, `none` before the first
record.  A new session starts when there is no current one or the record's
time exceeds the current session's `endAt` by more than `gapSec * 1000` ms;
otherwise `endAt` advances to the record's time.  Either way the record is
then accumulated into the current session. -/
def sessionStep (gapMs : Int) (st : List QuizSession × Option QuizSession)
    (a : QuizAttempt) : List QuizSession × Option QuizSession :=
  let time := ts a
  match st with
  | (done, none) => (done, some (accumRecord a (newSession a time)))
  | (done, some cur) =>
    if gapMs < time - cur.endAt then
      (done ++ [cur], some (accumRecord a (newSession a time)))
    else
      (done, some (accumRecord a { cur with endAt := time }))

/-- `groupIntoSessions(list, gapSec = SESSION_GAP_SEC)` (lines 239-272):
group a list of attempts (expected ASC by time) into sessions using the
time gap.  The source pushes `cur` into `out` on creation and keeps
mutating it; here the still-open session is carried separately and appended
at the end, which yields the same final array. -/
def groupIntoSessions (list : List QuizAttempt)
    (gapSec : Int := SESSION_GAP_SEC) : List QuizSession :=
  let st := list.foldl (sessionStep (gapSec * 1000)) ([], none)
  st.1 ++ st.2.toList

/-- The stable ascending-by-timestamp sort `arr.sort((a, b) => ts(a) - ts(b))`. -/
def sortByTs (l : List QuizAttempt) : List QuizAttempt :=
  l.mergeSort (fun a b => decide (ts a ≤ ts b))

/-- The insertion-ordered key list of the `byKey` Map built in `allSessions`
(lines 276-282): keys `(userId, bookId)` in order of first occurrence. -/
def insertionKeys : List QuizAttempt → List (Int × Int)
  | [] => []
  | a :: rest =>
    (a.userId, a.bookId) ::
      (insertionKeys rest).filter (fun k => decide (k ≠ (a.userId, a.bookId)))

/-- The value array the `byKey` Map holds for key `k`: the attempts with
that (userId, bookId), in input order. -/
def attemptsForKey (attempts : List QuizAttempt) (k : Int × Int) :
    List QuizAttempt :=
  attempts.filter (fun a => decide (a.userId = k.1 ∧ a.bookId = k.2))

/-- `allSessions` (lines 275-289): partition by `(userId, bookId)` via a
Map (insertion-order iteration), sort each partition ASC by time, group it
with the default gap, and concatenate. -/
def allSessions (attempts : List QuizAttempt) : List QuizSession :=
  (insertionKeys attempts).flatMap
    (fun k => groupIntoSessions (sortByTs (attemptsForKey attempts k)) SESSION_GAP_SEC)

/-- `sessionsForBook(bookId)` (lines 292-295): filter the attempt list by
`bookId` only, sort ASC by time, group with the default gap. -/
def sessionsForBook (attempts : List QuizAttempt) (bookId : Int) :
    List QuizSession :=
  groupIntoSessions
    (sortByTs (attempts.filter (fun a => decide (a.bookId = bookId))))
    SESSION_GAP_SEC

/-- `averageQuizAcrossSessions()` (lines 304-308): `null` when there are no
sessions, otherwise `Math.round` of the mean of the sessions' percentages. -/
def averageQuizAcrossSessions (attempts : List QuizAttempt) : Option Int :=
  if (allSessions attempts).length = 0 then none
  else some (jsRound (((allSessions attempts).map (fun s => s.percentage)).sum)
    (Int.ofNat (allSessions attempts).length))

/-- Instrumented variant of `sessionStep` that carries, next to each
session, the list of records accumulated into it, in processing order.
The session components evolve exactly as in `sessionStep`. -/
def sessionStepR (gapMs : Int)
    (st : List (QuizSession × List QuizAttempt) × Option (QuizSession × List QuizAttempt))
    (a : QuizAttempt) :
    List (QuizSession × List QuizAttempt) × Option (QuizSession × List QuizAttempt) :=
  let time := ts a
  match st with
  | (done, none) => (done, some (accumRecord a (newSession a time), [a]))
  | (done, some (cur, recs)) =>
    if gapMs < time - cur.endAt then
      (done ++ [(cur, recs)], some (accumRecord a (newSession a time), [a]))
    else
      (done, some (accumRecord a { cur with endAt := time }, recs ++ [a]))

/-- Instrumented `groupIntoSessions`: each produced session together with
the records that were accumulated into it. -/
def groupIntoSessionsR (list : List QuizAttempt) (gapSec : Int) :
    List (QuizSession × List QuizAttempt) :=
  let st := list.foldl (sessionStepR (gapSec * 1000)) ([], none)
  st.1 ++ st.2.toList

/-- Modelled from the spec (§4.1, derived queries): `sessionsForBook`
restricted to a single (user, book) pair — "filter the full attempt list
down to one (user, book) pair ... and run the grouping algorithm with the
default gap".  Used to compare the source's `sessionsForBook`, which
filters by `bookId` only, against the spec's description. -/
def sessionsForUserBook (attempts : List QuizAttempt) (userId bookId : Int) :
    List QuizSession :=
  groupIntoSessions
    (sortByTs (attempts.filter (fun a => decide (a.userId = userId ∧ a.bookId = bookId))))
    SESSION_GAP_SEC

/-- A date string as the host's `new Date` constructor classifies it:
empty (falsy before parsing is ever attempted), parseable with a given
epoch-millisecond value, or unparseable. -/
inductive JSDateInput where
  | emptyStr : JSDateInput
  | validDate : Int → JSDateInput
  | invalidDate : JSDateInput
deriving DecidableEq, Repr

/-- A JavaScript number that is either an integer value or NaN. -/
inductive JSNumber where
  | num : Int → JSNumber
  | nan : JSNumber
deriving DecidableEq, Repr

/-- Host behaviour of `new Date(s).getTime()`: the epoch milliseconds for a
parseable string, NaN for an unparseable one (an Invalid Date). -/
def dateGetTime : JSDateInput → JSNumber
  | .validDate ms => .num ms
  | _ => .nan

/-- JavaScript string truthiness: only the empty string is falsy. -/
def strTruthy : JSDateInput → Bool
  | .emptyStr => false
  | _ => true

/-- `const ts = (a) => (a.createdAt ? new Date(a.createdAt).getTime() : 0)`
(line 236) over raw date strings, keeping the host's NaN behaviour. -/
def tsRaw (createdAt : Option JSDateInput) : JSNumber :=
  match createdAt with
  | some s => if strTruthy s then dateGetTime s else .num 0
  | none => .num 0

/-- Earned-badge record (type `EarnedBadge` in the source, plus the
snake_case timestamp variants the sort comparator probes for).  Timestamp
fields hold parsed epoch milliseconds, `none` when absent. -/
structure EarnedBadge where
  id : Int
  userId : Int := 0
  badgeId : Int := 0
  bookId : Option Int := none
  awardedAt : Option Int := none
  awarded_at : Option Int := none
  createdAt : Option Int := none
  created_at : Option Int := none
deriving DecidableEq, Repr

/-- The comparator's timestamp resolution (lines 527-530):
`a.awardedAt ?? a.awarded_at ?? a.createdAt ?? a.created_at`, then
`aDate ? new Date(aDate).getTime() : 0`. -/
def badgeTs (b : EarnedBadge) : Int :=
  (((b.awardedAt.or b.awarded_at).or b.createdAt).or b.created_at).getD 0

/-- The badge display order (lines 524-532):
`earnedBadges.slice().sort((a, b) => tb - ta)` — a stable sort descending
by the resolved timestamp. -/
def sortBadges (l : List EarnedBadge) : List EarnedBadge :=
  l.mergeSort (fun a b => decide (badgeTs b ≤ badgeTs a))

/-- Projection of an instrumented fold state to the plain fold state. -/
def projSt
    (st : List (QuizSession × List QuizAttempt) × Option (QuizSession × List QuizAttempt)) :
    List QuizSession × Option QuizSession :=
  (st.1.map Prod.fst, st.2.map Prod.fst)

/-- Well-formedness of one session paired with its contributing records:
the totals are the sums of the records' (defaulted) scores, the mode is
"straight" exactly when some contributing record's coerced mode is, and the
percentage satisfies the guarded rounding invariant. -/
def blockOK (p : QuizSession × List QuizAttempt) : Prop :=
  p.1.totalCorrect = (p.2.map (fun a => a.scoreCorrect.getD 0)).sum
  ∧ p.1.totalTotal = (p.2.map (fun a => a.scoreTotal.getD 0)).sum
  ∧ (p.1.mode = "straight" ↔ ∃ a ∈ p.2, recMode a = "straight")
  ∧ p.1.percentage
      = (if 0 < p.1.totalTotal then jsRound (100 * p.1.totalCorrect) p.1.totalTotal else 0)

/-- Loop invariant for the instrumented fold: every closed block and the
current block are well-formed, and the blocks' records joined in order are
exactly the records processed so far. -/
def stateOKR (processed : List QuizAttempt)
    (st : List (QuizSession × List QuizAttempt) × Option (QuizSession × List QuizAttempt)) :
    Prop :=
  (∀ p ∈ st.1, blockOK p)
  ∧ (∀ p, st.2 = some p → blockOK p)
  ∧ st.1.flatMap Prod.snd ++ st.2.elim [] Prod.snd = processed

/-- Sessions in output order: each spans a nonempty time interval
(`startAt ≤ endAt`) and consecutive sessions are separated by more than the
gap (`endAt + gapMs < next startAt`). -/
def sessionsChainOK (gapMs : Int) (l : List QuizSession) : Prop :=
  (∀ s ∈ l, s.startAt ≤ s.endAt)
  ∧ List.Chain' (fun s1 s2 => s1.endAt + gapMs < s2.startAt) l

/-! ### Concrete test data for witnesses and counterexamples -/

/-- A single 3-out-of-5 attempt at t=0. -/
def attemptC1 : QuizAttempt :=
  { userId := 1, bookId := 1, scoreCorrect := some 3, scoreTotal := some 5 }

/-- The session grouped from `attemptC1` alone. -/
def sessionC1 : QuizSession :=
  { bookId := 1, startAt := 0, endAt := 0, totalCorrect := 3, totalTotal := 5,
    percentage := 60, mode := "retry" }

/-- A bare attempt at t=0 with no scores. -/
def attemptC2 : QuizAttempt := { userId := 1, bookId := 1 }

/-- The session grouped from `attemptC2` alone. -/
def sessionC2 : QuizSession :=
  { bookId := 1, startAt := 0, endAt := 0, totalCorrect := 0, totalTotal := 0,
    percentage := 0, mode := "retry" }

/-- An attempt at t=0 and companions at various times, for the gap claim. -/
def attemptAt (t : Int) : QuizAttempt :=
  { userId := 1, bookId := 1, createdAt := some t }

/-- A "straight"-mode attempt at t=0, for the mode-tainting claim. -/
def attemptStraight : QuizAttempt :=
  { userId := 1, bookId := 1, mode := some "straight" }

/-- The session grouped from `attemptStraight` alone. -/
def sessionStraight : QuizSession :=
  { bookId := 1, startAt := 0, endAt := 0, totalCorrect := 0, totalTotal := 0,
    percentage := 0, mode := "straight" }

/-- A record with `scoreTotal = 0` but a positive `scoreCorrect`. -/
def attemptZeroTotal : QuizAttempt :=
  { userId := 1, bookId := 1, scoreCorrect := some 3, scoreTotal := some 0 }

/-- Two perfect single-point attempts on book 1 at t=0 by two distinct
users — the input on which `sessionsForBook` mixes users. -/
def mixedUserAttempts : List QuizAttempt :=
  [{ userId := 1, bookId := 1, scoreCorrect := some 1, scoreTotal := some 1 },
    { userId := 2, bookId := 1, scoreCorrect := some 1, scoreTotal := some 1 }]

/-- A perfect single-point attempt by user 1 on book 1 at t=0. -/
def attemptPerfect : QuizAttempt :=
  { userId := 1, bookId := 1, scoreCorrect := some 1, scoreTotal := some 1 }

/-- The session grouped from `attemptPerfect` alone. -/
def sessionPerfect : QuizSession :=
  { bookId := 1, startAt := 0, endAt := 0, totalCorrect := 1, totalTotal := 1,
    percentage := 100, mode := "retry" }

/-- The session grouped from `attemptZeroTotal` alone. -/
def sessionZeroTotal : QuizSession :=
  { bookId := 1, startAt := 0, endAt := 0, totalCorrect := 3, totalTotal := 0,
    percentage := 0, mode := "retry" }

/-- An attempt with no `createdAt` and one at t=5000, for the sort claim. -/
def attemptNoDate : QuizAttempt := { userId := 1, bookId := 1 }

/-- An earned badge with only a snake_case `awarded_at` timestamp. -/
def badgeSnake : EarnedBadge := { id := 1, awarded_at := some 2000 }

/-- An earned badge with a camelCase `createdAt` timestamp. -/
def badgeCamel : EarnedBadge := { id := 2, createdAt := some 1000 }

/-! ### Basic reduction lemmas -/

@[simp] theorem newSession_startAt (a : QuizAttempt) (t : Int) :
    (newSession a t).startAt = t := rfl

@[simp] theorem newSession_endAt (a : QuizAttempt) (t : Int) :
    (newSession a t).endAt = t := rfl

@[simp] theorem accumRecord_startAt (a : QuizAttempt) (s : QuizSession) :
    (accumRecord a s).startAt = s.startAt := rfl

@[simp] theorem accumRecord_endAt (a : QuizAttempt) (s : QuizSession) :
    (accumRecord a s).endAt = s.endAt := rfl

theorem sessionStep_none (g : Int) (done : List QuizSession) (a : QuizAttempt) :
    sessionStep g (done, none) a
      = (done, some (accumRecord a (newSession a (ts a)))) := rfl

theorem sessionStep_some (g : Int) (done : List QuizSession) (c : QuizSession)
    (a : QuizAttempt) :
    sessionStep g (done, some c) a
      = if g < ts a - c.endAt
        then (done ++ [c], some (accumRecord a (newSession a (ts a))))
        else (done, some (accumRecord a { c with endAt := ts a })) := rfl

theorem recMode_eq_straight (a : QuizAttempt) :
    recMode a = "straight" ↔ a.mode = some "straight" := by
  unfold recMode
  by_cases h : a.mode = some "straight" <;> simp [h]

/-! ### The instrumented fold projects onto the plain fold -/

theorem projSt_sessionStepR (g : Int)
    (st : List (QuizSession × List QuizAttempt) × Option (QuizSession × List QuizAttempt))
    (a : QuizAttempt) :
    projSt (sessionStepR g st a) = sessionStep g (projSt st) a := by
  obtain ⟨done, cur⟩ := st
  cases cur with
  | none => rfl
  | some p =>
    obtain ⟨c, recs⟩ := p
    by_cases h : g < ts a - c.endAt <;>
      simp [sessionStepR, sessionStep, projSt, h]

theorem projSt_foldl (g : Int) (l : List QuizAttempt) :
    ∀ st, projSt (l.foldl (sessionStepR g) st) = l.foldl (sessionStep g) (projSt st) := by
  induction l with
  | nil => intro st; rfl
  | cons a rest ih =>
    intro st
    simp only [List.foldl_cons]
    rw [ih, projSt_sessionStepR]

theorem groupIntoSessionsR_fst (l : List QuizAttempt) (gapSec : Int) :
    (groupIntoSessionsR l gapSec).map Prod.fst = groupIntoSessions l gapSec := by
  have h : projSt (l.foldl (sessionStepR (gapSec * 1000)) ([], none))
      = l.foldl (sessionStep (gapSec * 1000)) ([], none) :=
    projSt_foldl (gapSec * 1000) l ([], none)
  have h1 : (l.foldl (sessionStepR (gapSec * 1000)) ([], none)).1.map Prod.fst
      = (l.foldl (sessionStep (gapSec * 1000)) ([], none)).1 := by
    rw [← h]; rfl
  have h2 : (l.foldl (sessionStepR (gapSec * 1000)) ([], none)).2.map Prod.fst
      = (l.foldl (sessionStep (gapSec * 1000)) ([], none)).2 := by
    rw [← h]; rfl
  show ((l.foldl (sessionStepR (gapSec * 1000)) ([], none)).1
      ++ (l.foldl (sessionStepR (gapSec * 1000)) ([], none)).2.toList).map Prod.fst
      = (l.foldl (sessionStep (gapSec * 1000)) ([], none)).1
      ++ (l.foldl (sessionStep (gapSec * 1000)) ([], none)).2.toList
  rw [List.map_append, h1, ← h2]
  cases (l.foldl (sessionStepR (gapSec * 1000)) ([], none)).2 <;> rfl

/-! ### The block invariant is preserved by the loop -/

theorem blockOK_new (a : QuizAttempt) :
    blockOK (accumRecord a (newSession a (ts a)), [a]) := by
  unfold blockOK accumRecord newSession
  refine ⟨by simp, by simp, ?_, by simp⟩
  by_cases h : recMode a = "straight" <;> simp [h]

theorem blockOK_extend (a : QuizAttempt) (c : QuizSession) (recs : List QuizAttempt)
    (t : Int) (h : blockOK (c, recs)) :
    blockOK (accumRecord a { c with endAt := t }, recs ++ [a]) := by
  obtain ⟨h1, h2, h3, _⟩ := h
  have h1' : c.totalCorrect = (recs.map (fun a => a.scoreCorrect.getD 0)).sum := h1
  have h2' : c.totalTotal = (recs.map (fun a => a.scoreTotal.getD 0)).sum := h2
  have h3' : c.mode = "straight" ↔ ∃ a ∈ recs, recMode a = "straight" := h3
  unfold blockOK accumRecord
  refine ⟨by simp [h1'], by simp [h2'], ?_, by simp⟩
  by_cases hm : recMode a = "straight"
  · have hex : ∃ x ∈ recs ++ [a], recMode x = "straight" := ⟨a, by simp, hm⟩
    simpa [hm] using hex
  · have hiff : (c.mode = "straight") ↔ ∃ x ∈ recs ++ [a], recMode x = "straight" := by
      rw [h3']
      constructor
      · rintro ⟨x, hx, hx2⟩
        exact ⟨x, by simp [hx], hx2⟩
      · rintro ⟨x, hx, hx2⟩
        rcases List.mem_append.mp hx with hxr | hxa
        · exact ⟨x, hxr, hx2⟩
        · rw [List.mem_singleton.mp hxa] at hx2
          exact absurd hx2 hm
    simpa [hm] using hiff

theorem stateOKR_step (g : Int) (processed : List QuizAttempt)
    (st : List (QuizSession × List QuizAttempt) × Option (QuizSession × List QuizAttempt))
    (a : QuizAttempt) (h : stateOKR processed st) :
    stateOKR (processed ++ [a]) (sessionStepR g st a) := by
  obtain ⟨done, cur⟩ := st
  obtain ⟨hdone, hcur, hjoin⟩ := h
  cases cur with
  | none =>
    refine ⟨hdone, ?_, ?_⟩
    · intro p hp
      cases hp
      exact blockOK_new a
    · simp only [Option.elim_none, List.append_nil] at hjoin
      show done.flatMap Prod.snd ++ [a] = processed ++ [a]
      rw [hjoin]
  | some p =>
    obtain ⟨c, recs⟩ := p
    simp only [Option.elim_some] at hjoin
    show stateOKR (processed ++ [a])
      (if g < ts a - c.endAt
        then (done ++ [(c, recs)], some (accumRecord a (newSession a (ts a)), [a]))
        else (done, some (accumRecord a { c with endAt := ts a }, recs ++ [a])))
    by_cases hg : g < ts a - c.endAt
    · rw [if_pos hg]
      refine ⟨?_, ?_, ?_⟩
      · intro p hp
        rcases List.mem_append.mp hp with hp1 | hp2
        · exact hdone p hp1
        · rw [List.mem_singleton.mp hp2]
          exact hcur (c, recs) rfl
      · intro p hp
        cases hp
        exact blockOK_new a
      · show (done ++ [(c, recs)]).flatMap Prod.snd ++ [a] = processed ++ [a]
        rw [List.flatMap_append, ← hjoin]
        simp
    · rw [if_neg hg]
      refine ⟨hdone, ?_, ?_⟩
      · intro p hp
        cases hp
        exact blockOK_extend a c recs (ts a) (hcur (c, recs) rfl)
      · show done.flatMap Prod.snd ++ (recs ++ [a]) = processed ++ [a]
        rw [← hjoin, List.append_assoc]

theorem stateOKR_foldl (g : Int) (l : List QuizAttempt) :
    ∀ (processed : List QuizAttempt)
      (st : List (QuizSession × List QuizAttempt) × Option (QuizSession × List QuizAttempt)),
      stateOKR processed st →
      stateOKR (processed ++ l) (l.foldl (sessionStepR g) st) := by
  induction l with
  | nil => intro processed st h; simpa using h
  | cons a rest ih =>
    intro processed st h
    have h2 := ih (processed ++ [a]) _ (stateOKR_step g processed st a h)
    simpa [List.append_assoc] using h2

theorem groupIntoSessionsR_blockOK (l : List QuizAttempt) (gapSec : Int) :
    ∀ p ∈ groupIntoSessionsR l gapSec, blockOK p := by
  have h := stateOKR_foldl (gapSec * 1000) l [] ([], none)
    ⟨by simp, by simp, rfl⟩
  intro p hp
  have hp' : p ∈ (l.foldl (sessionStepR (gapSec * 1000)) ([], none)).1
      ++ (l.foldl (sessionStepR (gapSec * 1000)) ([], none)).2.toList := hp
  rcases List.mem_append.mp hp' with h1 | h2
  · exact h.1 p h1
  · cases hst : (l.foldl (sessionStepR (gapSec * 1000)) ([], none)).2 with
    | none => rw [hst] at h2; cases h2
    | some q =>
      rw [hst] at h2
      rw [List.mem_singleton.mp h2]
      exact h.2.1 q hst

theorem groupIntoSessionsR_join (l : List QuizAttempt) (gapSec : Int) :
    (groupIntoSessionsR l gapSec).flatMap Prod.snd = l := by
  have h := stateOKR_foldl (gapSec * 1000) l [] ([], none)
    ⟨by simp, by simp, rfl⟩
  have hj := h.2.2
  show ((l.foldl (sessionStepR (gapSec * 1000)) ([], none)).1
      ++ (l.foldl (sessionStepR (gapSec * 1000)) ([], none)).2.toList).flatMap Prod.snd = l
  rw [List.flatMap_append]
  cases hst : (l.foldl (sessionStepR (gapSec * 1000)) ([], none)).2 with
  | none =>
    rw [hst] at hj
    simp only [Option.elim_none, List.append_nil] at hj
    simpa using hj
  | some q =>
    rw [hst] at hj
    simp only [Option.elim_some] at hj
    simpa using hj

/-! ### Ordering of sessions over time-sorted input -/

theorem chain_foldl (g : Int) :
    ∀ (l : List QuizAttempt) (done : List QuizSession) (cur : Option QuizSession),
      List.Pairwise (fun x y => ts x ≤ ts y) l →
      sessionsChainOK g (done ++ cur.toList) →
      (∀ c, cur = some c → c.startAt ≤ c.endAt ∧ ∀ r ∈ l, c.endAt ≤ ts r) →
      (cur = none → done = []) →
      sessionsChainOK g
        ((l.foldl (sessionStep g) (done, cur)).1
          ++ (l.foldl (sessionStep g) (done, cur)).2.toList) := by
  intro l
  induction l with
  | nil =>
    intro done cur _ hchain _ _
    simpa using hchain
  | cons a rest ih =>
    intro done cur hpw hchain hcur hnone
    rw [List.pairwise_cons] at hpw
    obtain ⟨ha, hpw'⟩ := hpw
    simp only [List.foldl_cons]
    cases cur with
    | none =>
      have hd : done = [] := hnone rfl
      subst hd
      rw [sessionStep_none]
      apply ih
      · exact hpw'
      · refine ⟨?_, List.chain'_singleton _⟩
        intro s hs
        rw [List.mem_singleton.mp hs]
        simp
      · intro c' hc'
        cases hc'
        constructor
        · simp
        · intro r hr
          simpa using ha r hr
      · intro h
        cases h
    | some c =>
      have hchain' : sessionsChainOK g (done ++ [c]) := hchain
      obtain ⟨hc1, hc2⟩ := hcur c rfl
      have hc2a : c.endAt ≤ ts a := hc2 a (List.mem_cons_self a rest)
      rw [sessionStep_some]
      by_cases hg : g < ts a - c.endAt
      · rw [if_pos hg]
        apply ih
        · exact hpw'
        · constructor
          · intro s hs
            rcases List.mem_append.mp hs with hs1 | hs2
            · exact hchain'.1 s hs1
            · rw [List.mem_singleton.mp hs2]
              simp
          · rw [List.chain'_append]
            refine ⟨hchain'.2, List.chain'_singleton _, ?_⟩
            intro x hx y hy
            rw [List.getLast?_concat] at hx
            simp only [Option.toList_some, List.head?_cons, Option.mem_def,
              Option.some.injEq] at hx hy
            rw [← hx, ← hy]
            simp only [accumRecord_startAt, newSession_startAt]
            omega
        · intro c' hc'
          cases hc'
          constructor
          · simp
          · intro r hr
            simpa using ha r hr
        · intro h
          cases h
      · rw [if_neg hg]
        apply ih
        · exact hpw'
        · constructor
          · intro s hs
            rcases List.mem_append.mp hs with hs1 | hs2
            · exact hchain'.1 s (List.mem_append_left _ hs1)
            · rw [List.mem_singleton.mp hs2]
              show c.startAt ≤ ts a
              omega
          · have hdec := List.chain'_append.mp hchain'.2
            rw [List.chain'_append]
            refine ⟨hdec.1, List.chain'_singleton _, ?_⟩
            intro x hx y hy
            simp only [Option.toList_some, List.head?_cons, Option.mem_def,
              Option.some.injEq] at hy
            have := hdec.2.2 x hx c (by simp)
            rw [← hy]
            simpa using this
        · intro c' hc'
          cases hc'
          constructor
          · show c.startAt ≤ ts a
            omega
          · intro r hr
            simpa using ha r hr
        · intro h
          cases h

theorem groupIntoSessions_chainOK (l : List QuizAttempt) (gapSec : Int)
    (hpw : List.Pairwise (fun x y => ts x ≤ ts y) l) :
    sessionsChainOK (gapSec * 1000) (groupIntoSessions l gapSec) := by
  have h := chain_foldl (gapSec * 1000) l [] none hpw
    ⟨by simp, List.chain'_nil⟩ (by intro c hc; cases hc) (fun _ => rfl)
  exact h

theorem sortByTs_pairwise (l : List QuizAttempt) :
    List.Pairwise (fun x y => ts x ≤ ts y) (sortByTs l) := by
  have h := @List.sorted_mergeSort QuizAttempt
    (fun a b : QuizAttempt => decide (ts a ≤ ts b))
    (fun a b c hab hbc => by
      simp only [decide_eq_true_eq] at hab hbc ⊢
      omega)
    (fun a b => by
      simp only [Bool.or_eq_true, decide_eq_true_eq]
      omega)
    l
  exact h.imp (fun hab => by simpa using hab)

theorem sortByTs_of_sorted (l : List QuizAttempt)
    (h : List.Pairwise (fun a b => ts a ≤ ts b) l) : sortByTs l = l :=
  List.mergeSort_of_sorted (h.imp (fun hab => by simpa using hab))

theorem chain'_strengthen {α : Type} {R S : α → α → Prop} {W : α → Prop} :
    ∀ {l : List α}, (∀ x ∈ l, W x) → List.Chain' R l →
      (∀ x y, W x → W y → R x y → S x y) → List.Chain' S l
  | [], _, _, _ => List.chain'_nil
  | [a], _, _, _ => List.chain'_singleton a
  | _ :: b :: l, hw, hc, himp => by
    rw [List.chain'_cons] at hc ⊢
    refine ⟨himp _ b (hw _ (by simp)) (hw b (by simp)) hc.1, ?_⟩
    exact chain'_strengthen (fun x hx => hw x (List.mem_cons_of_mem _ hx)) hc.2 himp

/-- Closed form of the grouping of a two-element list. -/
theorem groupIntoSessions_pair (a b : QuizAttempt) (g : Int) :
    groupIntoSessions [a, b] g
      = if g * 1000 < ts b - ts a
        then [accumRecord a (newSession a (ts a)),
              accumRecord b (newSession b (ts b))]
        else [accumRecord b { accumRecord a (newSession a (ts a)) with endAt := ts b }] := by
  show ((sessionStep (g * 1000) (sessionStep (g * 1000) ([], none) a) b).1
      ++ (sessionStep (g * 1000) (sessionStep (g * 1000) ([], none) a) b).2.toList) = _
  rw [sessionStep_none, sessionStep_some]
  simp only [accumRecord_endAt, newSession_endAt]
  by_cases hg : g * 1000 < ts b - ts a
  · rw [if_pos hg, if_pos hg]
    rfl
  · rw [if_neg hg, if_neg hg]
    rfl

/-! ### Claim theorems -/

/-- **C1.** For every list of quiz-attempt records and every session produced
by the grouping algorithm, the session's `percentage` field equals
`round(totalCorrect / totalTotal * 100)` (on exact rationals,
`jsRound (100 * totalCorrect) totalTotal`) when `totalTotal > 0`, and
equals 0 when `totalTotal ≤ 0`. -/
theorem percentage_invariant (l : List QuizAttempt) (gapSec : Int)
    (s : QuizSession) (hs : s ∈ groupIntoSessions l gapSec) :
    s.percentage
      = if 0 < s.totalTotal then jsRound (100 * s.totalCorrect) s.totalTotal else 0 := by
  rw [← groupIntoSessionsR_fst] at hs
  obtain ⟨p, hp, hps⟩ := List.mem_map.mp hs
  rw [← hps]
  exact (groupIntoSessionsR_blockOK l gapSec p hp).2.2.2

/-- Witness for C1: the session grouped from a single 3-out-of-5 attempt
has `percentage = 60`, matching the invariant at a concrete input. -/
theorem percentage_invariant_witness :
    sessionC1.percentage
      = if 0 < sessionC1.totalTotal
        then jsRound (100 * sessionC1.totalCorrect) sessionC1.totalTotal else 0 :=
  percentage_invariant [attemptC1] SESSION_GAP_SEC sessionC1 (by decide)

/-- **C2.** Within each (userId, bookId) partition — the attempts
`attemptsForKey attempts (u, b)`, time-sorted, exactly as `allSessions`
feeds them to the grouping algorithm — the produced sessions are ordered by
`startAt` ascending and non-overlapping: each session's `startAt` is
strictly greater than the previous session's `endAt`, in fact greater by
more than the gap threshold; moreover every session spans
`startAt ≤ endAt`. -/
theorem partition_sessions_ordered (attempts : List QuizAttempt) (u b : Int) :
    List.Chain'
      (fun s1 s2 => s1.startAt < s2.startAt ∧ s1.endAt < s2.startAt
        ∧ s1.endAt + SESSION_GAP_SEC * 1000 < s2.startAt)
      (groupIntoSessions (sortByTs (attemptsForKey attempts (u, b))) SESSION_GAP_SEC)
    ∧ ∀ s ∈ groupIntoSessions (sortByTs (attemptsForKey attempts (u, b))) SESSION_GAP_SEC,
        s.startAt ≤ s.endAt := by
  obtain ⟨hwf, hchain⟩ :=
    groupIntoSessions_chainOK (sortByTs (attemptsForKey attempts (u, b))) SESSION_GAP_SEC
      (sortByTs_pairwise _)
  refine ⟨chain'_strengthen hwf hchain ?_, hwf⟩
  intro x y hx hy hr
  have hgap : SESSION_GAP_SEC = 120 := rfl
  rw [hgap] at hr ⊢
  exact ⟨by omega, by omega, hr⟩

/-- Witness for C2 at a concrete one-attempt partition. -/
theorem partition_sessions_ordered_witness :
    sessionC2.startAt ≤ sessionC2.endAt :=
  (partition_sessions_ordered [attemptC2] 1 1).2 sessionC2 (by
    rw [show attemptsForKey [attemptC2] (1, 1) = [attemptC2] from by decide,
      sortByTs_of_sorted [attemptC2] (by decide)]
    decide)

/-- **C3.** Two attempts exactly `gapSec` seconds apart merge into one
session, two attempts more than `gapSec` seconds apart split into two; in
particular, with the default 120 s gap, attempts at t=0 and t=119000 ms
merge while attempts at t=0 and t=121000 ms split. -/
theorem gap_boundary :
    (∀ (a b : QuizAttempt) (g : Int), ts a ≤ ts b →
      (ts b - ts a = g * 1000 → (groupIntoSessions [a, b] g).length = 1)
      ∧ (g * 1000 < ts b - ts a → (groupIntoSessions [a, b] g).length = 2))
    ∧ (groupIntoSessions [attemptAt 0, attemptAt 119000] SESSION_GAP_SEC).length = 1
    ∧ (groupIntoSessions [attemptAt 0, attemptAt 121000] SESSION_GAP_SEC).length = 2 := by
  refine ⟨?_, by decide, by decide⟩
  intro a b g _
  constructor
  · intro heq
    rw [groupIntoSessions_pair, if_neg (by omega)]
    rfl
  · intro hlt
    rw [groupIntoSessions_pair, if_pos hlt]
    rfl

/-- Witness for C3: attempts exactly 120 s apart merge into one session. -/
theorem gap_boundary_witness :
    (groupIntoSessions [attemptAt 0, attemptAt 120000] 120).length = 1 :=
  (gap_boundary.1 (attemptAt 0) (attemptAt 120000) 120 (by decide)).1 (by decide)

/-- **C4.** Mode tainting: the instrumented grouping projects onto
`groupIntoSessions`, and a session's mode is "straight" precisely when some
attempt accumulated into it (at any position) has mode "straight" — in
particular a session with a "straight" attempt reports "straight" and never
downgrades back to "retry" as later attempts are accumulated. -/
theorem mode_tainting (l : List QuizAttempt) (gapSec : Int) :
    ((groupIntoSessionsR l gapSec).map Prod.fst = groupIntoSessions l gapSec)
    ∧ ∀ p ∈ groupIntoSessionsR l gapSec,
        (p.1.mode = "straight" ↔ ∃ a ∈ p.2, a.mode = some "straight") := by
  refine ⟨groupIntoSessionsR_fst l gapSec, fun p hp => ?_⟩
  have h := (groupIntoSessionsR_blockOK l gapSec p hp).2.2.1
  constructor
  · intro hm
    obtain ⟨a, ha, ha2⟩ := h.mp hm
    exact ⟨a, ha, (recMode_eq_straight a).mp ha2⟩
  · intro hex
    obtain ⟨a, ha, ha2⟩ := hex
    exact h.mpr ⟨a, ha, (recMode_eq_straight a).mpr ha2⟩

/-- Witness for C4: a session containing a "straight" attempt has mode
"straight". -/
theorem mode_tainting_witness :
    sessionStraight.mode = "straight" :=
  ((mode_tainting [attemptStraight] 120).2 (sessionStraight, [attemptStraight])
    (by decide)).mpr ⟨attemptStraight, by decide, rfl⟩

/-- C5 counterexample: the record `attemptZeroTotal` has `scoreTotal = 0`
(so `scoreTotal ≤ 0`) yet contributes its `scoreCorrect = 3`, not 0, to the
session's `totalCorrect`. -/
theorem zero_total_contribution_counterexample :
    (groupIntoSessions [attemptZeroTotal] SESSION_GAP_SEC).map (fun s => s.totalCorrect) = [3]
    ∧ attemptZeroTotal.scoreTotal.getD 0 ≤ 0
    ∧ (3 : Int) ≠ 0 := by decide

/-- **C5 (amended).** Every attempt record contributes exactly its
`scoreCorrect` (default 0) to `totalCorrect` and its `scoreTotal`
(default 0) to `totalTotal` — so a `scoreTotal ≤ 0` record still
contributes its scores — and such records never cause a division by zero:
whenever a session's `totalTotal ≤ 0` its `percentage` is guarded to 0. -/
theorem contribution_and_divzero_guard (l : List QuizAttempt) (gapSec : Int) :
    ∀ p ∈ groupIntoSessionsR l gapSec,
      p.1.totalCorrect = (p.2.map (fun a => a.scoreCorrect.getD 0)).sum
      ∧ p.1.totalTotal = (p.2.map (fun a => a.scoreTotal.getD 0)).sum
      ∧ (p.1.totalTotal ≤ 0 → p.1.percentage = 0) := by
  intro p hp
  obtain ⟨h1, h2, _, h4⟩ := groupIntoSessionsR_blockOK l gapSec p hp
  refine ⟨h1, h2, fun hle => ?_⟩
  rw [h4, if_neg (by omega)]

/-- Witness for C5 (amended) at the concrete zero-total record. -/
theorem contribution_and_divzero_guard_witness :
    sessionZeroTotal.percentage = 0 :=
  ((contribution_and_divzero_guard [attemptZeroTotal] 120
    (sessionZeroTotal, [attemptZeroTotal]) (by decide)).2.2) (by decide)

/-- Sum of a per-block function over the joined records. -/
theorem sum_blocks (g : QuizAttempt → Int) :
    ∀ (l : List (QuizSession × List QuizAttempt)),
      ((l.flatMap Prod.snd).map g).sum = (l.map (fun p => (p.2.map g).sum)).sum
  | [] => rfl
  | p :: rest => by
    simp only [List.flatMap_cons, List.map_cons, List.map_append, List.sum_append,
      List.sum_cons, sum_blocks g rest]

theorem sum_over_sessions (l : List QuizAttempt) (gapSec : Int)
    (f : QuizSession → Int) (g : QuizAttempt → Int)
    (hf : ∀ p ∈ groupIntoSessionsR l gapSec, f p.1 = (p.2.map g).sum) :
    ((groupIntoSessions l gapSec).map f).sum = (l.map g).sum := by
  rw [← groupIntoSessionsR_fst, List.map_map]
  have hmap : (groupIntoSessionsR l gapSec).map (f ∘ Prod.fst)
      = (groupIntoSessionsR l gapSec).map (fun p => (p.2.map g).sum) :=
    List.map_congr_left (fun p hp => by simpa using hf p hp)
  rw [hmap, ← sum_blocks g (groupIntoSessionsR l gapSec), groupIntoSessionsR_join]

/-- **C10.** Grouping conserves score totals: summing `totalCorrect` over
all produced sessions gives the sum of the records' `scoreCorrect`
(default 0), and likewise `totalTotal` against `scoreTotal` — every record
is accumulated into exactly one session. -/
theorem grouping_conserves_totals (l : List QuizAttempt) (gapSec : Int) :
    ((groupIntoSessions l gapSec).map (fun s => s.totalCorrect)).sum
      = (l.map (fun a => a.scoreCorrect.getD 0)).sum
    ∧ ((groupIntoSessions l gapSec).map (fun s => s.totalTotal)).sum
      = (l.map (fun a => a.scoreTotal.getD 0)).sum :=
  ⟨sum_over_sessions l gapSec _ _
      (fun p hp => (groupIntoSessionsR_blockOK l gapSec p hp).1),
    sum_over_sessions l gapSec _ _
      (fun p hp => (groupIntoSessionsR_blockOK l gapSec p hp).2.1)⟩

/-- C6 counterexample: with attempts on book 1 by users 1 and 2 in the
list, `sessionsForBook 1` matches neither single user's (user, book)
grouping — the second user's record contributes to the returned session,
whose `totalTotal` is 2 instead of 1. -/
theorem sessionsForBook_mixed_counterexample :
    sessionsForBook mixedUserAttempts 1 ≠ sessionsForUserBook mixedUserAttempts 1 1
    ∧ sessionsForBook mixedUserAttempts 1 ≠ sessionsForUserBook mixedUserAttempts 2 1
    ∧ (sessionsForBook mixedUserAttempts 1).map (fun s => s.totalTotal) = [2]
    ∧ (sessionsForUserBook mixedUserAttempts 1 1).map (fun s => s.totalTotal) = [1] := by
  have h1 : sortByTs (mixedUserAttempts.filter (fun a => decide (a.bookId = 1)))
      = mixedUserAttempts.filter (fun a => decide (a.bookId = 1)) :=
    sortByTs_of_sorted _ (by decide)
  have h2 : sortByTs (mixedUserAttempts.filter (fun a => decide (a.userId = 1 ∧ a.bookId = 1)))
      = mixedUserAttempts.filter (fun a => decide (a.userId = 1 ∧ a.bookId = 1)) :=
    sortByTs_of_sorted _ (by decide)
  have h3 : sortByTs (mixedUserAttempts.filter (fun a => decide (a.userId = 2 ∧ a.bookId = 1)))
      = mixedUserAttempts.filter (fun a => decide (a.userId = 2 ∧ a.bookId = 1)) :=
    sortByTs_of_sorted _ (by decide)
  unfold sessionsForBook sessionsForUserBook
  rw [h1, h2, h3]
  refine ⟨by decide, by decide, by decide, by decide⟩

/-- **C6 (amended).** Under the API guarantee that the fetched attempt list
belongs to a single (current) user `u`, `sessionsForBook b` coincides with
the grouping of exactly the (u, b) attempts; without that guarantee the
source's filter keeps other users' records for the same book (see the
counterexample). -/
theorem sessionsForBook_single_user (attempts : List QuizAttempt) (u b : Int)
    (h : ∀ a ∈ attempts, a.userId = u) :
    sessionsForBook attempts b = sessionsForUserBook attempts u b := by
  unfold sessionsForBook sessionsForUserBook
  have hf : attempts.filter (fun a => decide (a.bookId = b))
      = attempts.filter (fun a => decide (a.userId = u ∧ a.bookId = b)) :=
    List.filter_congr (fun a ha => by simp [decide_eq_decide, h a ha])
  rw [hf]

/-- Witness for C6 (amended) on a one-user list. -/
theorem sessionsForBook_single_user_witness :
    sessionsForBook [attemptPerfect] 1 = sessionsForUserBook [attemptPerfect] 1 1 :=
  sessionsForBook_single_user [attemptPerfect] 1 1 (by decide)

/-- **C7.** `averageQuizAcrossSessions` returns the no-data sentinel `none`
(not 0) exactly when the session set over all books is empty; on a
non-empty session set it returns `Math.round` of the arithmetic mean of the
sessions' percentages. -/
theorem average_none_iff_empty (attempts : List QuizAttempt) :
    (averageQuizAcrossSessions attempts = none ↔ allSessions attempts = [])
    ∧ (allSessions attempts ≠ [] →
        averageQuizAcrossSessions attempts
          = some (jsRound (((allSessions attempts).map (fun s => s.percentage)).sum)
              (Int.ofNat (allSessions attempts).length))) := by
  unfold averageQuizAcrossSessions
  by_cases h : (allSessions attempts).length = 0
  · rw [if_pos h]
    exact ⟨by simp [List.length_eq_zero.mp h],
      fun hne => absurd (List.length_eq_zero.mp h) hne⟩
  · rw [if_neg h]
    refine ⟨⟨fun hx => absurd hx (by simp), fun hx => absurd (by rw [hx]; rfl) h⟩,
      fun _ => rfl⟩

/-- Witness for C7: empty input yields `none`; a single perfect attempt
yields `some 100`. -/
theorem average_none_iff_empty_witness :
    averageQuizAcrossSessions [] = none
    ∧ averageQuizAcrossSessions [attemptPerfect] = some 100 := by
  have hall : allSessions [attemptPerfect] = [sessionPerfect] := by
    unfold allSessions
    rw [show insertionKeys [attemptPerfect] = [(1, 1)] from rfl]
    rw [List.flatMap_cons, List.flatMap_nil]
    rw [show attemptsForKey [attemptPerfect] (1, 1) = [attemptPerfect] from by decide,
      sortByTs_of_sorted [attemptPerfect] (by decide)]
    decide
  constructor
  · exact (average_none_iff_empty []).1.mpr rfl
  · have h := (average_none_iff_empty [attemptPerfect]).2 (by rw [hall]; decide)
    rw [hall] at h
    rw [h]
    decide

/-- C8 counterexample: a non-empty but unparseable `createdAt` string makes
`ts` return NaN (the value of `new Date(bad).getTime()`), not 0. -/
theorem unparseable_createdAt_counterexample :
    tsRaw (some JSDateInput.invalidDate) = JSNumber.nan
    ∧ JSNumber.nan ≠ JSNumber.num 0 := by decide

/-- **C8 (amended).** A record whose `createdAt` is absent (or empty, hence
falsy) gets timestamp 0; the ascending sort is pairwise nondecreasing in
`ts`, and whenever such a record appears in the sorted list, every record
before it has a non-positive timestamp — so it is never placed after a
record with a positive timestamp, and it is processed without error.  An
unparseable non-empty `createdAt` instead yields NaN (see the
counterexample), not 0. -/
theorem missing_createdAt_sorts_first (l : List QuizAttempt) (a : QuizAttempt)
    (h : a.createdAt = none) :
    ts a = 0
    ∧ List.Pairwise (fun x y => ts x ≤ ts y) (sortByTs l)
    ∧ ∀ pre suf, sortByTs l = pre ++ a :: suf → ∀ b ∈ pre, ¬ 0 < ts b := by
  have hza : ts a = 0 := by simp [ts, h]
  refine ⟨hza, sortByTs_pairwise l, ?_⟩
  intro pre suf hsplit b hb
  have hp := sortByTs_pairwise l
  rw [hsplit] at hp
  have hba := (List.pairwise_append.mp hp).2.2 b hb a (List.mem_cons_self a suf)
  omega

/-- Witness for C8 (amended) on a concrete two-record list. -/
theorem missing_createdAt_sorts_first_witness :
    ts attemptNoDate = 0
    ∧ List.Pairwise (fun x y => ts x ≤ ts y) (sortByTs [attemptNoDate, attemptAt 5000])
    ∧ ∀ pre suf, sortByTs [attemptNoDate, attemptAt 5000] = pre ++ attemptNoDate :: suf →
        ∀ b ∈ pre, ¬ 0 < ts b :=
  missing_createdAt_sorts_first [attemptNoDate, attemptAt 5000] attemptNoDate rfl

/-- **C9.** The badge display order is the input stably sorted descending
by the resolved best-available timestamp: it is a permutation of the input,
pairwise descending in `badgeTs`, ties keep their relative input order (the
sub-list at any fixed resolved timestamp is unchanged), and the timestamp
resolution probes `awardedAt`, then `awarded_at`, then `createdAt`, then
`created_at`, defaulting to epoch 0. -/
theorem badge_display_order (l : List EarnedBadge) :
    (sortBadges l).Perm l
    ∧ List.Pairwise (fun x y => badgeTs y ≤ badgeTs x) (sortBadges l)
    ∧ (∀ t : Int, (sortBadges l).filter (fun b => decide (badgeTs b = t))
        = l.filter (fun b => decide (badgeTs b = t)))
    ∧ (∀ b : EarnedBadge,
        badgeTs b
          = (((b.awardedAt.or b.awarded_at).or b.createdAt).or b.created_at).getD 0) := by
  refine ⟨List.mergeSort_perm l _, ?_, ?_, fun b => rfl⟩
  · have h := @List.sorted_mergeSort EarnedBadge
      (fun a b : EarnedBadge => decide (badgeTs b ≤ badgeTs a))
      (fun a b c hab hbc => by
        simp only [decide_eq_true_eq] at hab hbc ⊢
        omega)
      (fun a b => by
        simp only [Bool.or_eq_true, decide_eq_true_eq]
        omega)
      l
    exact h.imp (fun hab => by simpa using hab)
  · intro t
    have hsub : List.Sublist
        ((l.filter (fun b => decide (badgeTs b = t))).filter
          (fun b => decide (badgeTs b = t)))
        ((sortBadges l).filter (fun b => decide (badgeTs b = t))) := by
      apply List.Sublist.filter
      show List.Sublist _ (l.mergeSort (fun a b => decide (badgeTs b ≤ badgeTs a)))
      apply List.sublist_mergeSort
      · intro a b c hab hbc
        simp only [decide_eq_true_eq] at hab hbc ⊢
        omega
      · intro a b
        simp only [Bool.or_eq_true, decide_eq_true_eq]
        omega
      · apply List.pairwise_of_forall_mem_list
        intro a ha b hb
        have ha' := (List.mem_filter.mp ha).2
        have hb' := (List.mem_filter.mp hb).2
        simp only [decide_eq_true_eq] at ha' hb' ⊢
        omega
      · exact List.filter_sublist l
    have hid : (l.filter (fun b => decide (badgeTs b = t))).filter
        (fun b => decide (badgeTs b = t)) = l.filter (fun b => decide (badgeTs b = t)) :=
      List.filter_eq_self.mpr (fun a ha => (List.mem_filter.mp ha).2)
    rw [hid] at hsub
    have hperm : ((sortBadges l).filter (fun b => decide (badgeTs b = t))).Perm
        (l.filter (fun b => decide (badgeTs b = t))) :=
      (List.mergeSort_perm l _).filter _
    exact (hsub.eq_of_length hperm.length_eq.symm).symm

end StudentProgress
